import Mathlib

/-!
Shallow embedding of `trading_bot.py` (a single-file Binance trading bot).

Numeric model: Python floats are modelled as exact rationals (`ℚ`).
Python's `round(x, n)` (banker's rounding, round-half-to-even) is modelled by
`roundTo`, and float floor-division `a // b` by `⌊a / b⌋ * b` on `ℚ`.
Exceptions are modelled with `Except Exc`: `Exc.api` stands for
`BinanceAPIException` (the only exception the bot's local handlers catch) and
`Exc.runtime` for any other Python exception (`IndexError`, `StopIteration`,
errors raised inside the API client, ...), which local
`except BinanceAPIException` blocks do not catch.

The Binance client is modelled as an environment `Env` of response maps; each
order-placing function additionally returns the list of exchange order calls
it performed (`Call`), so that "no order was submitted" is expressible.
-/

namespace TradingBot

/-- Trading-pair symbols are strings, as in the source. -/
abbrev Symbol := String

/-- Python exception classes relevant to the bot: `api` is
`BinanceAPIException`; `runtime` is any other exception (not caught by the
bot's `except BinanceAPIException` handlers). -/
inductive Exc where
  | api
  | runtime
deriving DecidableEq, Repr

/-- One candlestick; the source only reads entry `[1]` (open) and entry `[4]`
(close) of a kline row. -/
structure Candle where
  openPrice : ℚ
  closePrice : ℚ
deriving DecidableEq, Repr

/-- One fill of an executed order: the source reads
`order['fills'][0]['price']` and `order['fills'][0]['qty']`. -/
structure Fill where
  price : ℚ
  qty : ℚ
deriving DecidableEq, Repr

/-- An order response; only its `fills` list is read by the source. -/
structure Order where
  fills : List Fill
deriving DecidableEq, Repr

/-- The LOT_SIZE filter data the buy path reads: `minQty`, and the step size
recorded by its decimal exponent `stepExp` (Binance LOT_SIZE step sizes are
powers of ten `10^-stepExp`, rendered in the API as strings such as
`"1.00000000"` or `"0.00100000"`). -/
structure LotSize where
  minQty : ℚ
  stepExp : ℕ
deriving DecidableEq, Repr

/-- The numeric value `float(lot_size_filter['stepSize'])`. -/
def stepSizeQ (e : ℕ) : ℚ := (10 : ℚ) ^ (-(e : ℤ))

/-- `int(lot_size_filter['stepSize'].find('1') - 1)`: in the API string
`"0.0…010…"` for `stepSize = 10^-e` with `e ≥ 1` the character `'1'` sits at
index `e + 1`, giving precision `e`; for `stepSize = 1` the string is
`"1.00000000"`, `find('1') = 0`, giving precision `-1`. -/
def quantityPrecision (e : ℕ) : ℤ := if e = 0 then -1 else (e : ℤ)

/-- Python's `round` to an integer: round half to even (banker's rounding). -/
def roundHalfEven (q : ℚ) : ℤ :=
  let f := ⌊q⌋
  let r := q - f
  if r < 1 / 2 then f
  else if r = 1 / 2 then (if Even f then f else f + 1)
  else f + 1

/-- Python's `round(x, n)` on the exact-rational model (n may be negative,
as happens for `stepSize = 1`). -/
def roundTo (n : ℤ) (x : ℚ) : ℚ :=
  (roundHalfEven (x * (10 : ℚ) ^ n) : ℚ) / (10 : ℚ) ^ n

/-- An order call submitted to the exchange. The symbol is an `Option`
because the loop can pass `None` (Python) down the buy path. -/
inductive Call where
  | buy (symbol : Option Symbol) (quantity : ℚ)
  | sell (symbol : Option Symbol) (quantity : ℚ)
deriving DecidableEq, Repr

/-- The exchange client, as a table of responses.  `klines s = none` models
`get_klines` raising `BinanceAPIException` for `s`.  `pumpFeed i` is the
result of the `i`-th successive ticker poll made by `wait_for_pump` for the
held symbol (`none` = `BinanceAPIException`). -/
structure Env where
  getBalance : Except Exc ℚ
  klines : Symbol → Option (Candle × Candle)
  ticker : Option Symbol → Except Exc ℚ
  rules : Option Symbol → Except Exc LotSize
  marketBuy : Option Symbol → ℚ → Except Exc Order
  marketSell : Option Symbol → ℚ → Except Exc Order
  pumpFeed : ℕ → Option ℚ

/-- The module-level watchlist `cryptos` of the source. -/
def cryptos : List Symbol :=
  ["BTCUSDT", "ETHUSDT", "BNBUSDT", "XRPUSDT", "ADAUSDT", "SOLUSDT",
   "DOGEUSDT", "DOTUSDT", "AVAXUSDT", "LTCUSDT", "LINKUSDT"]

/-- `((closing_price - opening_price) / opening_price) * 100` where
`opening_price = float(ohlcv[0][1])` and `closing_price = float(ohlcv[1][4])`.
Per the source's comments, `ohlcv[0]` is "the most recent candle" and
`ohlcv[1]` "the previous candle". -/
def priceChangePercent (pair : Candle × Candle) : ℚ :=
  ((pair.2.closePrice - pair.1.openPrice) / pair.1.openPrice) * 100

/-- The `for crypto in cryptos` loop of `get_top_loss_crypto`, with the
accumulator `(best_loss, best_crypto)` made explicit (both variables start as
`None` and are always assigned together).  A failed fetch
(`BinanceAPIException`) is logged and leaves the accumulator unchanged. -/
def scanBest (fetch : Symbol → Option (Candle × Candle)) :
    List Symbol → Option ℚ × Option Symbol → Option ℚ × Option Symbol
  | [], acc => acc
  | crypto :: rest, acc =>
    scanBest fetch rest
      (match fetch crypto with
       | none => acc
       | some pair =>
         let price_change_percent := priceChangePercent pair
         match acc.1, acc.2 with
         | none, _ => (some price_change_percent, some crypto)
         | some best_loss, best_crypto =>
           if price_change_percent < best_loss then
             (some price_change_percent, some crypto)
           else (some best_loss, best_crypto))

/-- `get_top_loss_crypto(cryptos, timeframe)`: the kline fetch (already
specialised to the timeframe) is passed in as `fetch`. -/
def get_top_loss_crypto (fetch : Symbol → Option (Candle × Candle))
    (cryptoList : List Symbol) : Option Symbol :=
  (scanBest fetch cryptoList (none, none)).2

/-- `kelly_criterion(win_prob, win_loss_ratio)`. -/
def kelly_criterion (win_prob win_loss_ratio : ℚ) : ℚ :=
  win_prob - (1 - win_prob) / win_loss_ratio

/-- `invest_in_crypto(crypto, amount_to_invest)`.  Outside its `try` block it
can raise: a failing ticker or exchange-info lookup propagates (`.error`).
Inside the `try`, a `BinanceAPIException` from `order_market_buy` is caught
and `(None, None)` is returned (`.ok none`); any other exception raised by
the client propagates.  The second component records the order calls made. -/
def invest_in_crypto (env : Env) (crypto : Option Symbol)
    (amount_to_invest : ℚ) :
    Except Exc (Option (Order × ℚ)) × List Call :=
  match env.ticker crypto with
  | .error e => (.error e, [])
  | .ok current_price =>
    let amount_to_buy := amount_to_invest / current_price
    match env.rules crypto with
    | .error e => (.error e, [])
    | .ok lot =>
      let step := stepSizeQ lot.stepExp
      let adjusted := max lot.minQty (⌊amount_to_buy / step⌋ * step)
      let quantity := roundTo (quantityPrecision lot.stepExp) adjusted
      match env.marketBuy crypto quantity with
      | .ok order => (.ok (some (order, current_price)), [.buy crypto quantity])
      | .error .api => (.ok none, [.buy crypto quantity])
      | .error .runtime => (.error .runtime, [.buy crypto quantity])

/-- `invest_using_kelly(crypto, usdt_balance, win_prob=0.6, win_loss_ratio=2)`. -/
def invest_using_kelly (env : Env) (crypto : Option Symbol)
    (usdt_balance : ℚ) (win_prob : ℚ := 6 / 10) (win_loss_ratio : ℚ := 2) :
    Except Exc (Option (Order × ℚ)) × List Call :=
  let kelly_fraction := kelly_criterion win_prob win_loss_ratio
  let amount_to_invest := usdt_balance * kelly_fraction
  invest_in_crypto env crypto amount_to_invest

/-- The `while True` body of `wait_for_pump`, with fuel making the unbounded
poll loop a total function: `i` counts the polls already made, and `none`
means "still polling after `fuel` iterations" (it never corresponds to a
value returned by the Python function).  A fetch failure
(`BinanceAPIException`, `feed i = none`) is logged and polling continues
after the same delay. -/
def wait_for_pump_loop (feed : ℕ → Option ℚ) (buy_price target_gain : ℚ) :
    ℕ → ℕ → Option ℚ
  | 0, _ => none
  | fuel + 1, i =>
    match feed i with
    | some current_price =>
      if buy_price * target_gain ≤ current_price then some current_price
      else wait_for_pump_loop feed buy_price target_gain fuel (i + 1)
    | none => wait_for_pump_loop feed buy_price target_gain fuel (i + 1)

/-- `wait_for_pump(crypto, buy_price, target_gain=1.005)`: `feed` is the
stream of ticker polls for the held symbol. -/
def wait_for_pump (feed : ℕ → Option ℚ) (buy_price : ℚ) (fuel : ℕ)
    (target_gain : ℚ := 1005 / 1000) : Option ℚ :=
  wait_for_pump_loop feed buy_price target_gain fuel 0

/-- `sell_crypto(crypto, amount)`.  The quantity is `round(amount, 6)`.  A
`BinanceAPIException` from `order_market_sell` is caught, logged, and `None`
is returned (`.ok none`).  Reading `order['fills'][0]['price']` on an empty
fills list raises `IndexError`, which the `except BinanceAPIException`
handler does not catch, so it propagates (`.error .runtime`). -/
def sell_crypto (env : Env) (crypto : Option Symbol) (amount : ℚ) :
    Except Exc (Option Order) × List Call :=
  let quantity := roundTo 6 amount
  match env.marketSell crypto quantity with
  | .error .api => (.ok none, [.sell crypto quantity])
  | .error .runtime => (.error .runtime, [.sell crypto quantity])
  | .ok order =>
    match order.fills.head? with
    | none => (.error .runtime, [.sell crypto quantity])
    | some _fill => (.ok (some order), [.sell crypto quantity])

/-- `active_trade = (top_loss_crypto, buy_price, amount_bought)`.  The symbol
is an `Option` because the tuple stores whatever `get_top_loss_crypto`
returned. -/
structure ActiveTrade where
  symbol : Option Symbol
  buy_price : ℚ
  amount_bought : ℚ
deriving DecidableEq, Repr

/-- One iteration of the `while True` body of `run_trading_bot`, returning
the next `active_trade` and the order calls made.  The loop-level
`except Exception` catches every exception raised in the body, logs it and
continues, leaving `active_trade` at the value it had when the exception was
raised (no partial update of `active_trade` is possible mid-body). -/
def run_trading_bot_step (env : Env) (fuel : ℕ) :
    Option ActiveTrade → Option ActiveTrade × List Call
  | some t =>
    match wait_for_pump env.pumpFeed t.buy_price fuel with
    | none => (some t, [])
    | some _target_price =>
      let sellResult := sell_crypto env t.symbol t.amount_bought
      match sellResult.1 with
      | .ok (some _) => (none, sellResult.2)
      | .ok none => (some t, sellResult.2)
      | .error _ => (some t, sellResult.2)
  | none =>
    match env.getBalance with
    | .error _ => (none, [])
    | .ok usdt_balance =>
      if usdt_balance < 10 then (none, [])
      else
        let top_loss_crypto := get_top_loss_crypto env.klines cryptos
        let buyResult := invest_using_kelly env top_loss_crypto usdt_balance
        match buyResult.1 with
        | .error _ => (none, buyResult.2)
        | .ok none => (none, buyResult.2)
        | .ok (some (order, buy_price)) =>
          match order.fills.head? with
          | none => (none, buyResult.2)
          | some fill =>
            (some ⟨top_loss_crypto, buy_price, fill.qty⟩, buyResult.2)

/-! ### Scanner lemmas -/

/-- Once the accumulator of the scan loop is populated, it stays populated. -/
theorem scanBest_some (fetch : Symbol → Option (Candle × Candle)) :
    ∀ (l : List Symbol) (b : ℚ) (s0 : Symbol),
      ∃ b' s', scanBest fetch l (some b, some s0) = (some b', some s') := by
  intro l
  induction l with
  | nil => intro b s0; exact ⟨b, s0, rfl⟩
  | cons c rest ih =>
    intro b s0
    rw [scanBest]
    cases hc : fetch c with
    | none => exact ih b s0
    | some pair =>
      by_cases hlt : priceChangePercent pair < b
      · simpa [hlt] using ih (priceChangePercent pair) c
      · simpa [hlt] using ih b s0

/-- If every fetch in `l` fails, the scan loop leaves its accumulator
unchanged. -/
theorem scanBest_all_fail (fetch : Symbol → Option (Candle × Candle)) :
    ∀ (l : List Symbol) (acc : Option ℚ × Option Symbol),
      (∀ s ∈ l, fetch s = none) → scanBest fetch l acc = acc := by
  intro l
  induction l with
  | nil => intro acc _; rfl
  | cons c rest ih =>
    intro acc h
    rw [scanBest, h c (List.mem_cons_self c rest)]
    exact ih acc fun s hs => h s (List.mem_cons_of_mem c hs)

/-- Failed symbols are simply skipped: scanning a list gives the same result
as scanning only its successfully fetched symbols. -/
theorem scanBest_filter (fetch : Symbol → Option (Candle × Candle)) :
    ∀ (l : List Symbol) (acc : Option ℚ × Option Symbol),
      scanBest fetch l acc =
        scanBest fetch (l.filter fun s => (fetch s).isSome) acc := by
  intro l
  induction l with
  | nil => intro acc; rfl
  | cons c rest ih =>
    intro acc
    cases hc : fetch c with
    | none => rw [scanBest, hc, List.filter_cons_of_neg (by simp [hc]), ih]
    | some pair =>
      rw [scanBest, hc, List.filter_cons_of_pos (by simp [hc]), scanBest, hc, ih]

/-- The scanner returns `none` exactly when every fetch fails. -/
theorem get_top_loss_crypto_eq_none_iff
    (fetch : Symbol → Option (Candle × Candle)) (l : List Symbol) :
    get_top_loss_crypto fetch l = none ↔ ∀ s ∈ l, fetch s = none := by
  induction l with
  | nil => simp [get_top_loss_crypto, scanBest]
  | cons c rest ih =>
    cases hc : fetch c with
    | none =>
      rw [get_top_loss_crypto, scanBest, hc]
      simpa [get_top_loss_crypto, hc] using ih
    | some pair =>
      rw [get_top_loss_crypto, scanBest, hc]
      obtain ⟨b', s', hbs⟩ := scanBest_some fetch rest (priceChangePercent pair) c
      simp only [hbs]
      simp [hc]

/-- Invariant of the scan loop over a populated accumulator `(b, s0)`: the
result is either the unchanged accumulator (when `b` is at most every
remaining change) or the first strict improvement's symbol, which attains the
minimum and strictly beats every symbol before it. -/
theorem scanBest_min (fetch : Symbol → Option (Candle × Candle))
    (pr : Symbol → Candle × Candle) :
    ∀ (l : List Symbol) (b : ℚ) (s0 : Symbol),
      (∀ s ∈ l, fetch s = some (pr s)) →
      ∃ b' s', scanBest fetch l (some b, some s0) = (some b', some s') ∧
        ((s' = s0 ∧ b' = b ∧
            ∀ t ∈ l, b ≤ priceChangePercent (pr t)) ∨
         (∃ l₁ l₂, l = l₁ ++ s' :: l₂ ∧
            b' = priceChangePercent (pr s') ∧
            priceChangePercent (pr s') < b ∧
            (∀ t ∈ l₁, priceChangePercent (pr s') < priceChangePercent (pr t)) ∧
            (∀ t ∈ l, priceChangePercent (pr s') ≤ priceChangePercent (pr t)))) := by
  intro l
  induction l with
  | nil =>
    intro b s0 _
    exact ⟨b, s0, rfl, Or.inl ⟨rfl, rfl, by simp⟩⟩
  | cons c rest ih =>
    intro b s0 hf
    have hc : fetch c = some (pr c) := hf c (List.mem_cons_self c rest)
    have hrest : ∀ s ∈ rest, fetch s = some (pr s) :=
      fun s hs => hf s (List.mem_cons_of_mem c hs)
    rw [scanBest, hc]
    by_cases hlt : priceChangePercent (pr c) < b
    · simp only [hlt, if_pos]
      obtain ⟨b', s', heq, hcase⟩ := ih (priceChangePercent (pr c)) c hrest
      refine ⟨b', s', heq, Or.inr ?_⟩
      rcases hcase with ⟨hs', hb', hall⟩ | ⟨l₁, l₂, hsplit, hb', hlt', hpre, hall⟩
      · subst hs'
        refine ⟨[], rest, rfl, by simpa using hb', by simpa using hlt, by simp, ?_⟩
        intro t ht
        rcases List.mem_cons.mp ht with h | h
        · subst h; exact le_refl _
        · exact hall t h
      · refine ⟨c :: l₁, l₂, by rw [hsplit]; rfl, hb', lt_trans hlt' hlt, ?_, ?_⟩
        · intro t ht
          rcases List.mem_cons.mp ht with h | h
          · subst h; exact hlt'
          · exact hpre t h
        · intro t ht
          rcases List.mem_cons.mp ht with h | h
          · subst h; exact le_of_lt hlt'
          · exact hall t h
    · simp only [hlt, if_neg, not_false_iff]
      obtain ⟨b', s', heq, hcase⟩ := ih b s0 hrest
      refine ⟨b', s', heq, ?_⟩
      rcases hcase with ⟨hs', hb', hall⟩ | ⟨l₁, l₂, hsplit, hb', hlt', hpre, hall⟩
      · refine Or.inl ⟨hs', hb', ?_⟩
        intro t ht
        rcases List.mem_cons.mp ht with h | h
        · subst h; exact le_of_not_lt hlt
        · exact hall t h
      · refine Or.inr ⟨c :: l₁, l₂, by rw [hsplit]; rfl, hb', hlt', ?_, ?_⟩
        · intro t ht
          rcases List.mem_cons.mp ht with h | h
          · subst h; exact lt_of_lt_of_le hlt' (le_of_not_lt hlt)
          · exact hpre t h
        · intro t ht
          rcases List.mem_cons.mp ht with h | h
          · subst h; exact le_of_lt (lt_of_lt_of_le hlt' (le_of_not_lt hlt))
          · exact hall t h

/-- C1: on a nonempty watchlist whose fetches all succeed, the scanner
computes each symbol's percent change as
`(previous_close - current_open) / current_open * 100` (open of the first
fetched candle — the source's "most recent" — and close of the second — the
source's "previous") and returns the symbol attaining the minimum, ties
broken by watchlist order: the winner weakly minimises over the whole list
and strictly beats every symbol that precedes it. -/
theorem c1_scanner_first_min (fetch : Symbol → Option (Candle × Candle))
    (pr : Symbol → Candle × Candle) (l : List Symbol) (hne : l ≠ [])
    (hf : ∀ s ∈ l, fetch s = some (pr s)) :
    ∃ l₁ s l₂, l = l₁ ++ s :: l₂ ∧
      get_top_loss_crypto fetch l = some s ∧
      (∀ t ∈ l, priceChangePercent (pr s) ≤ priceChangePercent (pr t)) ∧
      (∀ t ∈ l₁, priceChangePercent (pr s) < priceChangePercent (pr t)) := by
  obtain ⟨c, rest, rfl⟩ := List.exists_cons_of_ne_nil hne
  have hc : fetch c = some (pr c) := hf c (List.mem_cons_self c rest)
  have hrest : ∀ s ∈ rest, fetch s = some (pr s) :=
    fun s hs => hf s (List.mem_cons_of_mem c hs)
  rw [get_top_loss_crypto, scanBest, hc]
  obtain ⟨b', s', heq, hcase⟩ :=
    scanBest_min fetch pr rest (priceChangePercent (pr c)) c hrest
  simp only [heq]
  rcases hcase with ⟨hs', _hb', hall⟩ | ⟨l₁, l₂, hsplit, _hb', hlt', hpre, hall⟩
  · subst hs'
    refine ⟨[], s', rest, rfl, rfl, ?_, by simp⟩
    intro t ht
    rcases List.mem_cons.mp ht with h | h
    · subst h; exact le_refl _
    · exact hall t h
  · refine ⟨c :: l₁, s', l₂, by rw [hsplit]; rfl, rfl, ?_, ?_⟩
    · intro t ht
      rcases List.mem_cons.mp ht with h | h
      · subst h; exact le_of_lt hlt'
      · exact hall t h
    · intro t ht
      rcases List.mem_cons.mp ht with h | h
      · subst h; exact hlt'
      · exact hpre t h

/-! ### Rebound monitor lemmas -/

/-- Any value returned by the poll loop is at or above the target price. -/
theorem wait_for_pump_loop_ge (feed : ℕ → Option ℚ) (bp g : ℚ) :
    ∀ (fuel i : ℕ) (p : ℚ),
      wait_for_pump_loop feed bp g fuel i = some p → bp * g ≤ p := by
  intro fuel
  induction fuel with
  | zero => intro i p h; exact absurd h (by simp [wait_for_pump_loop])
  | succ n ih =>
    intro i p h
    rw [wait_for_pump_loop] at h
    cases hf : feed i with
    | none => rw [hf] at h; exact ih (i + 1) p h
    | some cp =>
      rw [hf] at h
      dsimp only at h
      by_cases hge : bp * g ≤ cp
      · rw [if_pos hge] at h; exact Option.some.inj h ▸ hge
      · rw [if_neg hge] at h; exact ih (i + 1) p h

/-- If some poll at index `k` yields a price at or above the target, the loop
started at `i ≤ k` with enough fuel returns a price at or above the target:
intermediate fetch failures and below-target prices only delay it. -/
theorem wait_for_pump_loop_reaches (feed : ℕ → Option ℚ) (bp g q : ℚ) :
    ∀ (fuel i k : ℕ), i ≤ k → k < i + fuel → feed k = some q → bp * g ≤ q →
      ∃ p, wait_for_pump_loop feed bp g fuel i = some p ∧ bp * g ≤ p := by
  intro fuel
  induction fuel with
  | zero => intro i k hik hk _ _; omega
  | succ n ih =>
    intro i k hik hk hfk hq
    rw [wait_for_pump_loop]
    cases hf : feed i with
    | none =>
      have hik' : i ≠ k := fun h => by rw [h, hfk] at hf; cases hf
      exact ih (i + 1) k (by omega) (by omega) hfk hq
    | some cp =>
      dsimp only
      by_cases hge : bp * g ≤ cp
      · exact ⟨cp, by rw [if_pos hge], hge⟩
      · rw [if_neg hge]
        have hik' : i ≠ k := by
          intro h
          rw [h, hfk] at hf
          exact hge (Option.some.inj hf ▸ hq)
        exact ih (i + 1) k (by omega) (by omega) hfk hq

/-- C5: `wait_for_pump` uses the default target gain 1.005; any price it
returns satisfies `buy_price * target_gain ≤ price` (so no value below the
target is ever returned); a fetch failure or a below-target price makes the
loop poll again at the next instant rather than abort; and whenever some
poll eventually sees a price at or above the target, the wait (given enough
fuel — the Python loop has unbounded fuel) returns a price at or above the
target. -/
theorem c5_wait_for_pump_spec :
    (∀ (feed : ℕ → Option ℚ) (bp : ℚ) (fuel : ℕ),
        wait_for_pump feed bp fuel =
          wait_for_pump_loop feed bp (1005 / 1000) fuel 0) ∧
    (∀ (feed : ℕ → Option ℚ) (bp g : ℚ) (fuel i : ℕ) (p : ℚ),
        wait_for_pump_loop feed bp g fuel i = some p → bp * g ≤ p) ∧
    (∀ (feed : ℕ → Option ℚ) (bp g : ℚ) (fuel i : ℕ),
        (feed i = none ∨ ∀ q, feed i = some q → q < bp * g) →
        wait_for_pump_loop feed bp g (fuel + 1) i =
          wait_for_pump_loop feed bp g fuel (i + 1)) ∧
    (∀ (feed : ℕ → Option ℚ) (bp : ℚ) (fuel k : ℕ) (q : ℚ),
        feed k = some q → bp * (1005 / 1000) ≤ q → k < fuel →
        ∃ p, wait_for_pump feed bp fuel = some p ∧ bp * (1005 / 1000) ≤ p) := by
  refine ⟨fun _ _ _ => rfl, wait_for_pump_loop_ge, ?_, ?_⟩
  · intro feed bp g fuel i h
    rw [wait_for_pump_loop]
    cases hf : feed i with
    | none => rfl
    | some cp =>
      rcases h with h | h
      · rw [h] at hf; cases hf
      · exact if_neg (not_le_of_lt (h cp hf))
  · intro feed bp fuel k q hfk hq hk
    exact wait_for_pump_loop_reaches feed bp (1005 / 1000) q fuel 0 k
      (Nat.zero_le k) (by omega) hfk hq

/-- C5 witness: a concrete poll stream whose first price meets the target. -/
theorem c5_wait_for_pump_spec_witness : (2 : ℚ) * (1005 / 1000) ≤ 3 :=
  c5_wait_for_pump_spec.2.1 (fun _ => some 3) 2 (1005 / 1000) 1 0 3
    (by norm_num [wait_for_pump_loop])

/-! ### Sell path -/

/-- Whatever the exchange answers, the sell path submits exactly one order
call, for the quantity rounded to 6 decimals. -/
theorem sell_crypto_calls (env : Env) (crypto : Option Symbol) (amount : ℚ) :
    (sell_crypto env crypto amount).2 = [.sell crypto (roundTo 6 amount)] := by
  cases hms : env.marketSell crypto (roundTo 6 amount) with
  | error e => rw [sell_crypto, hms]; cases e <;> rfl
  | ok order =>
    rw [sell_crypto, hms]
    obtain ⟨fills⟩ := order
    cases fills <;> rfl

/-- C7: every sell submits the quantity rounded to a fixed 6-decimal
precision — `sell_crypto` never consults the symbol's trading rules, so this
holds for every environment (hence regardless of the native step size) — and
on the raw amount 1.23456789 the submitted quantity is 1.234568. -/
theorem c7_sell_six_decimals :
    (∀ (env : Env) (crypto : Option Symbol) (amount : ℚ),
        (sell_crypto env crypto amount).2 =
          [.sell crypto (roundTo 6 amount)]) ∧
    roundTo 6 (123456789 / 100000000) = 1234568 / 1000000 :=
  ⟨sell_crypto_calls, by norm_num [roundTo, roundHalfEven]⟩

/-! ### Position sizer -/

/-- C9: `kelly_criterion` computes `win_prob - (1 - win_prob)/win_loss_ratio`;
at the bot's fixed constants (0.6, 2.0) it is exactly 0.4 in the exact
arithmetic of the model, and `invest_using_kelly` therefore invests exactly
`balance * 0.4`. -/
theorem c9_kelly_fraction :
    (∀ win_prob win_loss_ratio : ℚ,
        kelly_criterion win_prob win_loss_ratio =
          win_prob - (1 - win_prob) / win_loss_ratio) ∧
    kelly_criterion (6 / 10) 2 = 4 / 10 ∧
    (∀ (env : Env) (crypto : Option Symbol) (usdt_balance : ℚ),
        invest_using_kelly env crypto usdt_balance =
          invest_in_crypto env crypto (usdt_balance * (4 / 10))) := by
  refine ⟨fun _ _ => rfl, by norm_num [kelly_criterion], ?_⟩
  intro env crypto usdt_balance
  rw [invest_using_kelly]
  norm_num [kelly_criterion]

/-! ### Trading loop -/

/-- C3: when every per-symbol candle fetch fails, the scanner returns no
symbol, and the IDLE iteration — whose ticker lookup for the absent symbol
(Python `None`) raises — ends with no active trade and no order call of any
kind submitted to the exchange; the top-level handler logs and the loop
retries IDLE. -/
theorem c3_all_fail_idle_retry (env : Env) (fuel : ℕ) (bal : ℚ) (exc : Exc)
    (hbal : env.getBalance = .ok bal) (h10 : ¬ bal < 10)
    (hfail : ∀ s ∈ cryptos, env.klines s = none)
    (htick : env.ticker none = .error exc) :
    get_top_loss_crypto env.klines cryptos = none ∧
    run_trading_bot_step env fuel none = (none, []) := by
  have hnone : get_top_loss_crypto env.klines cryptos = none :=
    congrArg Prod.snd (scanBest_all_fail env.klines cryptos (none, none) hfail)
  refine ⟨hnone, ?_⟩
  rw [run_trading_bot_step, hbal]
  dsimp only
  rw [if_neg h10, hnone]
  rw [invest_using_kelly, invest_in_crypto, htick]

/-- C4: in the HOLDING state, once the rebound wait has fired, a failed sell
(either the logged `BinanceAPIException` path returning `None`, or an
uncaught exception handled by the loop-level handler) leaves the very same
`ActiveTrade` in place so the wait/sell cycle is retried, while a successful
sell clears the `ActiveTrade`, returning the loop to IDLE. -/
theorem c4_hold_through_failed_sell (env : Env) (fuel : ℕ) (t : ActiveTrade)
    (p : ℚ) (hw : wait_for_pump env.pumpFeed t.buy_price fuel = some p) :
    ((sell_crypto env t.symbol t.amount_bought).1 = .ok none →
      run_trading_bot_step env fuel (some t) =
        (some t, (sell_crypto env t.symbol t.amount_bought).2)) ∧
    (∀ e, (sell_crypto env t.symbol t.amount_bought).1 = .error e →
      run_trading_bot_step env fuel (some t) =
        (some t, (sell_crypto env t.symbol t.amount_bought).2)) ∧
    (∀ o, (sell_crypto env t.symbol t.amount_bought).1 = .ok (some o) →
      run_trading_bot_step env fuel (some t) =
        (none, (sell_crypto env t.symbol t.amount_bought).2)) := by
  refine ⟨?_, ?_, ?_⟩
  · intro h
    rw [run_trading_bot_step, hw]
    dsimp only
    rw [h]
  · intro e h
    rw [run_trading_bot_step, hw]
    dsimp only
    rw [h]
  · intro o h
    rw [run_trading_bot_step, hw]
    dsimp only
    rw [h]

/-- C10: `sell_crypto` reads `order['fills'][0]['price']` and the loop reads
`order['fills'][0]['qty']`; when a successful order response carries at least
one fill these reads are safe (the sell returns the order, the loop records
the active trade with the first fill's quantity), whereas a successful sell
response with an empty fills list raises an `IndexError` that the
`except BinanceAPIException` handler of `sell_crypto` does not catch, so the
result is a propagated non-API exception rather than the logged `None`. -/
theorem c10_first_fill_access :
    (∀ (env : Env) (crypto : Option Symbol) (amount : ℚ) (order : Order)
        (f : Fill) (rest : List Fill),
        env.marketSell crypto (roundTo 6 amount) = .ok order →
        order.fills = f :: rest →
        (sell_crypto env crypto amount).1 = .ok (some order)) ∧
    (∀ (env : Env) (crypto : Option Symbol) (amount : ℚ) (order : Order),
        env.marketSell crypto (roundTo 6 amount) = .ok order →
        order.fills = [] →
        (sell_crypto env crypto amount).1 = .error .runtime) ∧
    (∀ (env : Env) (fuel : ℕ) (bal price : ℚ) (order : Order) (f : Fill)
        (rest : List Fill) (calls : List Call),
        env.getBalance = .ok bal → ¬ bal < 10 →
        invest_using_kelly env (get_top_loss_crypto env.klines cryptos) bal =
          (.ok (some (order, price)), calls) →
        order.fills = f :: rest →
        (run_trading_bot_step env fuel none).1 =
          some ⟨get_top_loss_crypto env.klines cryptos, price, f.qty⟩) := by
  refine ⟨?_, ?_, ?_⟩
  · intro env crypto amount order f rest hms hfills
    rw [sell_crypto, hms]
    dsimp only
    rw [hfills]
    rfl
  · intro env crypto amount order hms hfills
    rw [sell_crypto, hms]
    dsimp only
    rw [hfills]
    rfl
  · intro env fuel bal price order f rest calls hbal h10 hinv hfills
    rw [run_trading_bot_step, hbal]
    dsimp only
    rw [if_neg h10, hinv]
    dsimp only
    rw [hfills]
    rfl

/-! ### Buy-path quantity normalization -/

/-- When the ticker and the trading-rules lookup both succeed, the buy path
submits exactly one order call, for the source's normalized quantity. -/
theorem invest_in_crypto_calls (env : Env) (crypto : Option Symbol)
    (amount price : ℚ) (lot : LotSize)
    (ht : env.ticker crypto = .ok price) (hr : env.rules crypto = .ok lot) :
    (invest_in_crypto env crypto amount).2 =
      [.buy crypto (roundTo (quantityPrecision lot.stepExp)
        (max lot.minQty (⌊amount / price / stepSizeQ lot.stepExp⌋ *
          stepSizeQ lot.stepExp)))] := by
  rw [invest_in_crypto, ht]
  dsimp only
  rw [hr]
  dsimp only
  split <;> rfl

/-- Rounding an integer leaves it unchanged. -/
theorem roundHalfEven_intCast (j : ℤ) : roundHalfEven (j : ℚ) = j := by
  rw [roundHalfEven]
  norm_num [Int.floor_intCast]

/-- Rounding to `e` decimals fixes every integer multiple of `10^-e`. -/
theorem roundTo_int_mul_step (e : ℕ) (j : ℤ) :
    roundTo (e : ℤ) ((j : ℚ) * stepSizeQ e) = (j : ℚ) * stepSizeQ e := by
  have h10 : (10 : ℚ) ≠ 0 := by norm_num
  have hcancel : (j : ℚ) * stepSizeQ e * (10 : ℚ) ^ (e : ℤ) = (j : ℚ) := by
    rw [stepSizeQ, mul_assoc, ← zpow_add₀ h10]
    simp
  rw [roundTo, hcancel, roundHalfEven_intCast, stepSizeQ, zpow_neg,
    div_eq_mul_inv]

/-- The string-derived precision agrees with the step exponent for
fractional step sizes. -/
theorem quantityPrecision_of_pos (e : ℕ) (he : 1 ≤ e) :
    quantityPrecision e = (e : ℤ) := by
  rw [quantityPrecision, if_neg (by omega)]

/-- C6: the buy path normalizes the quantity as
`roundTo precision (max minQty (floor(raw / stepSize) * stepSize))` with
`raw = amount / price` and the precision derived from the step-size string;
in particular with `minQty = 0.001`, `stepSize = 0.001` and raw quantity
`0.00456`, the normalized quantity is `0.004`. -/
theorem c6_buy_normalization (env : Env) (s : Symbol) (amount price : ℚ)
    (lot : LotSize) (ht : env.ticker (some s) = .ok price)
    (hr : env.rules (some s) = .ok lot) :
    (invest_in_crypto env (some s) amount).2 =
      [.buy (some s) (roundTo (quantityPrecision lot.stepExp)
        (max lot.minQty (⌊amount / price / stepSizeQ lot.stepExp⌋ *
          stepSizeQ lot.stepExp)))] ∧
    roundTo (quantityPrecision 3)
      (max (1 / 1000 : ℚ)
        (⌊(456 / 100000 : ℚ) / stepSizeQ 3⌋ * stepSizeQ 3)) = 1 / 250 :=
  ⟨invest_in_crypto_calls env (some s) amount price lot ht hr,
   by norm_num [quantityPrecision, stepSizeQ, roundTo, roundHalfEven]⟩

/-- C8: failing symbols are skipped without aborting the scan — the scanner
gives the same answer as on the sub-watchlist of successfully fetched
symbols, for any failing subset — and it returns `none` exactly when every
symbol's fetch fails. -/
theorem c8_scanner_skips_failures
    (fetch : Symbol → Option (Candle × Candle)) (l : List Symbol) :
    get_top_loss_crypto fetch l =
      get_top_loss_crypto fetch (l.filter fun s => (fetch s).isSome) ∧
    (get_top_loss_crypto fetch l = none ↔ ∀ s ∈ l, fetch s = none) :=
  ⟨congrArg Prod.snd (scanBest_filter fetch l (none, none)),
   get_top_loss_crypto_eq_none_iff fetch l⟩

/-- C8 witness: on an all-failing fetch the scanner returns `none`. -/
theorem c8_scanner_skips_failures_witness :
    get_top_loss_crypto (fun _ => none) cryptos = none :=
  (c8_scanner_skips_failures (fun _ => none) cryptos).2.mpr fun _ _ => rfl

/-! ### C2: the LOT_SIZE invariant -/

/-- Exchange responses with `minQty = 1`, `stepSize = 1` (the LOT_SIZE rules
of many high-value pairs) and a unit price. -/
def envStepOne : Env where
  getBalance := .ok 100
  klines := fun _ => none
  ticker := fun _ => .ok 1
  rules := fun _ => .ok ⟨1, 0⟩
  marketBuy := fun _ _ => .ok ⟨[]⟩
  marketSell := fun _ _ => .ok ⟨[]⟩
  pumpFeed := fun _ => none

/-- Exchange responses whose LOT_SIZE rules have `stepSize = 0.01`. -/
def envStepTwo : Env where
  getBalance := .ok 100
  klines := fun _ => none
  ticker := fun _ => .ok 1
  rules := fun _ => .ok ⟨1 / 100, 2⟩
  marketBuy := fun _ _ => .ok ⟨[]⟩
  marketSell := fun _ _ => .ok ⟨[]⟩
  pumpFeed := fun _ => none

/-- C2 counterexample: the claim fails on reachable trading rules.  With
`minQty = stepSize = 1` and price 1, investing 4 units submits a buy for
quantity 0 (the string-derived precision is `-1`, so `round(4, -1) = 0`),
violating `quantity ≥ minQty`; and with `stepSize = 0.01`, selling the raw
amount 1.2345678 submits 1.234568, which is not an integer multiple of the
step size. -/
theorem c2_lot_size_counterexample :
    ((invest_in_crypto envStepOne (some "BTCUSDT") 4).2 =
        [.buy (some "BTCUSDT") 0] ∧ ¬ ((1 : ℚ) ≤ 0)) ∧
    ((sell_crypto envStepTwo (some "ETHUSDT") (12345678 / 10000000)).2 =
        [.sell (some "ETHUSDT") (154321 / 125000)] ∧
      ¬ ∃ k : ℤ, (154321 / 125000 : ℚ) = (k : ℚ) * stepSizeQ 2) := by
  refine ⟨⟨?_, by norm_num⟩, ⟨?_, ?_⟩⟩
  · rw [invest_in_crypto_calls envStepOne (some "BTCUSDT") 4 1 ⟨1, 0⟩ rfl rfl]
    norm_num [quantityPrecision, stepSizeQ, roundTo, roundHalfEven]
  · rw [sell_crypto_calls envStepTwo (some "ETHUSDT") (12345678 / 10000000)]
    norm_num [roundTo, roundHalfEven]
  · rintro ⟨k, hk⟩
    rw [stepSizeQ] at hk
    norm_num at hk
    have h2 : (k : ℚ) * 1250 = 154321 := by
      field_simp at hk
      linarith
    have h3 : k * 1250 = 154321 := by exact_mod_cast h2
    omega

/-- C2 amended: for every buy whose trading rules carry a fractional step
size `10^-e` (`e ≥ 1`) with `minQty` a natural multiple of the step size,
the submitted quantity is at least `minQty` and an integer multiple of the
step size; the claim's guarantee does not extend to `stepSize = 1` (where
the derived precision `-1` rounds to tens) nor to the sell path, which only
rounds to a fixed 6 decimals. -/
theorem c2_buy_lot_size_invariant (env : Env) (s : Symbol)
    (amount price : ℚ) (lot : LotSize) (m : ℕ)
    (ht : env.ticker (some s) = .ok price) (hr : env.rules (some s) = .ok lot)
    (he : 1 ≤ lot.stepExp)
    (hm : lot.minQty = (m : ℚ) * stepSizeQ lot.stepExp) :
    (∃ q, (invest_in_crypto env (some s) amount).2 = [.buy (some s) q] ∧
        lot.minQty ≤ q ∧ ∃ k : ℤ, q = (k : ℚ) * stepSizeQ lot.stepExp) ∧
    (∀ (env2 : Env) (crypto : Option Symbol) (amt : ℚ),
        (sell_crypto env2 crypto amt).2 = [.sell crypto (roundTo 6 amt)]) := by
  refine ⟨?_, sell_crypto_calls⟩
  have hσ : (0 : ℚ) < stepSizeQ lot.stepExp := by
    rw [stepSizeQ]
    positivity
  set K := ⌊amount / price / stepSizeQ lot.stepExp⌋ with hK
  have hmax : max lot.minQty ((K : ℚ) * stepSizeQ lot.stepExp) =
      ((max (m : ℤ) K : ℤ) : ℚ) * stepSizeQ lot.stepExp := by
    rw [hm, Int.cast_max, ← max_mul_of_nonneg _ _ (le_of_lt hσ)]
    push_cast
    rfl
  refine ⟨roundTo (quantityPrecision lot.stepExp)
    (max lot.minQty ((K : ℚ) * stepSizeQ lot.stepExp)), ?_, ?_, ?_⟩
  · exact invest_in_crypto_calls env (some s) amount price lot ht hr
  · rw [hmax, quantityPrecision_of_pos _ he, roundTo_int_mul_step, hm]
    refine mul_le_mul_of_nonneg_right ?_ (le_of_lt hσ)
    exact_mod_cast le_max_left (m : ℤ) K
  · refine ⟨max (m : ℤ) K, ?_⟩
    rw [hmax, quantityPrecision_of_pos _ he, roundTo_int_mul_step]

/-! ### Concrete instantiations -/

/-- A candle table: two symbols tie at a −10% change, the rest are at +5%. -/
def prScan : Symbol → Candle × Candle := fun s =>
  if s = "ETHUSDT" then (⟨100, 100⟩, ⟨100, 90⟩)
  else if s = "BNBUSDT" then (⟨100, 100⟩, ⟨100, 90⟩)
  else (⟨100, 100⟩, ⟨100, 105⟩)

/-- An always-successful kline fetch over `prScan`. -/
def fetchScan : Symbol → Option (Candle × Candle) := fun s => some (prScan s)

/-- C1 witness: the real watchlist with every fetch succeeding. -/
theorem c1_scanner_first_min_witness :
    ∃ l₁ s l₂, cryptos = l₁ ++ s :: l₂ ∧
      get_top_loss_crypto fetchScan cryptos = some s ∧
      (∀ t ∈ cryptos,
        priceChangePercent (prScan s) ≤ priceChangePercent (prScan t)) ∧
      (∀ t ∈ l₁,
        priceChangePercent (prScan s) < priceChangePercent (prScan t)) :=
  c1_scanner_first_min fetchScan prScan cryptos (by simp [cryptos])
    (fun _ _ => rfl)

/-- Exchange responses with `minQty = 0.001`, `stepSize = 0.001`, unit
price. -/
def envStepMilli : Env where
  getBalance := .ok 100
  klines := fun _ => none
  ticker := fun _ => .ok 1
  rules := fun _ => .ok ⟨1 / 1000, 3⟩
  marketBuy := fun _ _ => .ok ⟨[]⟩
  marketSell := fun _ _ => .ok ⟨[]⟩
  pumpFeed := fun _ => none

/-- C2 witness: concrete fractional-step rules meeting the amended claim. -/
theorem c2_buy_lot_size_invariant_witness :
    (∃ q, (invest_in_crypto envStepMilli (some "BTCUSDT") (456 / 100000)).2 =
        [.buy (some "BTCUSDT") q] ∧
      (1 / 1000 : ℚ) ≤ q ∧ ∃ k : ℤ, q = (k : ℚ) * stepSizeQ 3) ∧
    (∀ (env2 : Env) (crypto : Option Symbol) (amt : ℚ),
      (sell_crypto env2 crypto amt).2 = [.sell crypto (roundTo 6 amt)]) :=
  c2_buy_lot_size_invariant envStepMilli "BTCUSDT" (456 / 100000) 1
    ⟨1 / 1000, 3⟩ 1 rfl rfl (by norm_num) (by norm_num [stepSizeQ])

/-- Exchange responses where every call fails with `BinanceAPIException`. -/
def envAllFail : Env where
  getBalance := .ok 100
  klines := fun _ => none
  ticker := fun _ => .error .api
  rules := fun _ => .error .api
  marketBuy := fun _ _ => .error .api
  marketSell := fun _ _ => .error .api
  pumpFeed := fun _ => none

/-- C3 witness: sufficient balance, every candle fetch failing. -/
theorem c3_all_fail_idle_retry_witness :
    get_top_loss_crypto envAllFail.klines cryptos = none ∧
    run_trading_bot_step envAllFail 5 none = (none, []) :=
  c3_all_fail_idle_retry envAllFail 5 100 .api rfl (by norm_num)
    (fun _ _ => rfl) rfl

/-- Exchange responses where the pump target is met at once but the sell is
rejected with `BinanceAPIException`. -/
def envHold : Env where
  getBalance := .ok 100
  klines := fun _ => none
  ticker := fun _ => .ok 100
  rules := fun _ => .error .api
  marketBuy := fun _ _ => .error .api
  marketSell := fun _ _ => .error .api
  pumpFeed := fun _ => some 100

/-- An active trade held while `envHold` rejects sells. -/
def tHold : ActiveTrade := ⟨some "ETHUSDT", 1, 2⟩

/-- C4 witness: the rebound fires, the sell fails, the trade is retained. -/
theorem c4_hold_through_failed_sell_witness :
    run_trading_bot_step envHold 1 (some tHold) =
      (some tHold, (sell_crypto envHold tHold.symbol tHold.amount_bought).2) :=
  (c4_hold_through_failed_sell envHold 1 tHold 100
      (by norm_num [wait_for_pump, wait_for_pump_loop, tHold, envHold])).1 rfl

/-- C6 witness: the spec's worked normalization example end to end. -/
theorem c6_buy_normalization_witness :
    (invest_in_crypto envStepMilli (some "BTCUSDT") (456 / 100000)).2 =
      [.buy (some "BTCUSDT") (roundTo (quantityPrecision 3)
        (max (1 / 1000 : ℚ)
          (⌊(456 / 100000 : ℚ) / 1 / stepSizeQ 3⌋ * stepSizeQ 3)))] ∧
    roundTo (quantityPrecision 3)
      (max (1 / 1000 : ℚ)
        (⌊(456 / 100000 : ℚ) / stepSizeQ 3⌋ * stepSizeQ 3)) = 1 / 250 :=
  c6_buy_normalization envStepMilli "BTCUSDT" (456 / 100000) 1
    ⟨1 / 1000, 3⟩ rfl rfl

/-- Exchange responses whose orders fill with a single fill. -/
def envOneFill : Env where
  getBalance := .ok 100
  klines := fun _ => none
  ticker := fun _ => .ok 1
  rules := fun _ => .ok ⟨1 / 1000, 3⟩
  marketBuy := fun _ _ => .ok ⟨[⟨5, 3⟩]⟩
  marketSell := fun _ _ => .ok ⟨[⟨5, 3⟩]⟩
  pumpFeed := fun _ => some 100

/-- C10 witness: a one-fill order response makes the sell succeed. -/
theorem c10_first_fill_access_witness :
    (sell_crypto envOneFill (some "BTCUSDT") 1).1 = .ok (some ⟨[⟨5, 3⟩]⟩) :=
  c10_first_fill_access.1 envOneFill (some "BTCUSDT") 1 ⟨[⟨5, 3⟩]⟩ ⟨5, 3⟩ []
    rfl rfl

end TradingBot
